import Mathlib

/-!
Verification development for the certified-operators analysis tool
(`src/analysis/analyze_operators.py`).  The Python functions
`parse_openshift_versions`, `analyze_version_type`,
`calculate_certification_risk` and the aggregation steps of
`analyze_operator` are embedded shallowly below: strings are `List Char` /
`String`, Python lists are `List`, the two version-expansion `while` loops
become well-founded recursions, and the ambient wall clock read by
`datetime.datetime.now()` is passed as an explicit `now : Int` argument
(seconds since the epoch).
-/

namespace CertOps

/-- Character class for `str.strip(' "\x27')` on line 33 / 103 of
`analyze_operators.py`: space (32), double quote (34), single quote (39). -/
def isStripQuote (c : Char) : Bool :=
  c.toNat == 32 || c.toNat == 34 || c.toNat == 39

/-- Character class for Python's default `str.strip()` (line 38 / 106):
ASCII whitespace, i.e. space, tab, newline, carriage return, vertical tab,
form feed.  (Non-ASCII unicode whitespace is not modelled; no input in the
claims uses it.) -/
def isPyWs (c : Char) : Bool :=
  c.toNat == 32 || c.toNat == 9 || c.toNat == 10 ||
  c.toNat == 13 || c.toNat == 11 || c.toNat == 12

/-- Python `s.strip(chars)`: drop characters in the class from both ends. -/
def stripWith (p : Char → Bool) (cs : List Char) : List Char :=
  ((cs.dropWhile p).reverse.dropWhile p).reverse

/-- Python `s.split(',')`: split on every comma; consecutive commas yield
empty pieces, and `"".split(',') == ['']`. -/
def splitComma : List Char → List (List Char)
  | [] => [[]]
  | c :: rest =>
    if c = ',' then [] :: splitComma rest
    else
      match splitComma rest with
      | [] => [[c]]
      | p :: ps => (c :: p) :: ps

/-- Python `int()` applied to a nonempty ASCII digit string (a regex
`\d+` group). -/
def natOfDigits (ds : List Char) : Nat :=
  ds.foldl (fun n c => 10 * n + (c.toNat - 48)) 0

/-- The f-string `f"v{major}.{minor}"` used on lines 53, 63, 75. -/
def render (mj mn : Nat) : String :=
  "v" ++ toString mj ++ "." ++ toString mn

/-- `re.match(r'v(\d+)\.(\d+)', part)`: anchored at the start of the token,
arbitrary trailing text allowed.  Returns the two digit groups (as raw
digit strings, the way `re` returns them) and the unconsumed remainder.
Greedy `\d+` followed by a non-digit literal is exactly maximal munch. -/
def matchVMm : List Char → Option (List Char × List Char × List Char)
  | 'v' :: rest =>
    let ds1 := rest.takeWhile Char.isDigit
    if ds1 = [] then none
    else
      match rest.dropWhile Char.isDigit with
      | '.' :: r2 =>
        let ds2 := r2.takeWhile Char.isDigit
        if ds2 = [] then none
        else some (ds1, ds2, r2.dropWhile Char.isDigit)
      | _ => none
  | _ => none

/-- `re.match(r'v(\d+)\.(\d+)-v(\d+)\.(\d+)', part)` (line 45). -/
def matchRange (cs : List Char) :
    Option (List Char × List Char × List Char × List Char × List Char) :=
  match matchVMm cs with
  | none => none
  | some (a, b, r1) =>
    match r1 with
    | '-' :: r2 =>
      match matchVMm r2 with
      | none => none
      | some (c, d, r3) => some (a, b, c, d, r3)
    | _ => none

/-- `re.match(r'=v(\d+)\.(\d+)', part)` (line 61). -/
def matchExact (cs : List Char) : Option (List Char × List Char × List Char) :=
  match cs with
  | '=' :: rest => matchVMm rest
  | _ => none

/-- The inclusive-range expansion loop of lines 51-56: starting from
`(cM, cm)`, append `f"v{cM}.{cm}"` while `cM < eM or (cM == eM and
cm <= em)`, incrementing only the minor and breaking once it exceeds 99.
The major is never incremented (there is no carry). -/
def rangeLoop (cM cm eM em : Nat) : List String :=
  if h : cM < eM ∨ (cM = eM ∧ cm ≤ em) then
    render cM cm ::
      (if h2 : 99 < cm + 1 then [] else rangeLoop cM (cm + 1) eM em)
  else []
termination_by 100 - cm
decreasing_by omega

/-- The open-ended expansion loop of lines 73-81: walk `(cM, cm)` while
`cM <= 4 and cm <= 20`, bumping the minor, carrying into the next major at
minor 21 and breaking once the major exceeds 4. -/
def openEndedLoop (cM cm : Nat) : List String :=
  if h : cM ≤ 4 ∧ cm ≤ 20 then
    render cM cm ::
      (if h2 : 20 < cm + 1 then
        (if h3 : 4 < cM + 1 then [] else openEndedLoop (cM + 1) 0)
      else openEndedLoop cM (cm + 1))
  else []
termination_by (5 - cM) * 100 + (21 - cm)
decreasing_by
  · omega
  · omega

/-- One comma-separated clause of `parse_openshift_versions` (lines 40-86):
empty clauses are skipped, then ranged, exact, open-ended patterns are
tried in that order, and a clause that still starts with `v` is passed
through as a literal.  The exact branch (line 63) interpolates the raw
digit groups, not their `int` conversions. -/
def parseClause (part : List Char) : List String :=
  if part = [] then []
  else
    match matchRange part with
    | some (a, b, c, d, _) =>
      rangeLoop (natOfDigits a) (natOfDigits b) (natOfDigits c) (natOfDigits d)
    | none =>
      match matchExact part with
      | some (a, b, _) => ["v" ++ String.mk a ++ "." ++ String.mk b]
      | none =>
        match matchVMm part with
        | some (a, b, _) => openEndedLoop (natOfDigits a) (natOfDigits b)
        | none => if part.head? = some 'v' then [String.mk part] else []

/-- Trim the raw specifier and split it into stripped clauses
(lines 33-38). -/
def partsOf (s : String) : List (List Char) :=
  (splitComma (stripWith isStripQuote s.data)).map (stripWith isPyWs)

/-- `parse_openshift_versions` (lines 21-88).  The `Option` argument models
the Python falsy check `if not version_str` (line 29): `None` and `""`
both yield `[]`.  Clause results are appended in order; the function does
not deduplicate. -/
def parse_openshift_versions (vs : Option String) : List String :=
  match vs with
  | none => []
  | some s =>
    if s = "" then []
    else (partsOf s).foldl (fun acc part => acc ++ parseClause part) []

/-- The set `types_found` accumulated by `analyze_version_type`
(lines 108-127): which of the three clause shapes have been seen.
Python uses a `set` of tag strings; three booleans represent it. -/
structure Tags where
  ranged : Bool
  explicit : Bool
  open_ended : Bool
deriving DecidableEq

/-- The loop body of lines 110-127: skip empty clauses, then try the
ranged, exact and open-ended patterns in order, recording the first that
matches.  Unrecognized clauses contribute nothing. -/
def clauseStep (acc : Tags) (part : List Char) : Tags :=
  if part = [] then acc
  else if (matchRange part).isSome then Tags.mk true acc.explicit acc.open_ended
  else if (matchExact part).isSome then Tags.mk acc.ranged true acc.open_ended
  else if (matchVMm part).isSome then Tags.mk acc.ranged acc.explicit true
  else acc

/-- `types_found` after the whole loop. -/
def typesFound (parts : List (List Char)) : Tags :=
  parts.foldl clauseStep (Tags.mk false false false)

/-- `len(types_found)`. -/
def tagCount (t : Tags) : Nat :=
  t.ranged.toNat + t.explicit.toNat + t.open_ended.toNat

/-- Lines 129-134: collapse the shape set to a single tag — `'none'` for
the empty set, the unique element of a singleton (`list(types_found)[0]`),
`'mixed'` otherwise. -/
def collapseTags (t : Tags) : String :=
  if tagCount t = 0 then "none"
  else if tagCount t = 1 then
    (if t.ranged then "ranged" else if t.explicit then "explicit" else "open_ended")
  else "mixed"

/-- The shape set touched by one specifier string: trim, split, fold the
clause classifier.  (For `""` the single empty clause is skipped, so the
set is empty.) -/
def shapeSetOfSpec (s : String) : Tags :=
  typesFound (partsOf s)

/-- `analyze_version_type` (lines 90-134).  `none`/empty input is the
falsy check of line 99. -/
def analyze_version_type (vs : Option String) : String :=
  match vs with
  | none => "none"
  | some s => if s = "" then "none" else collapseTags (shapeSetOfSpec s)

/-- Outcome of `datetime.datetime.fromisoformat` on the externally
produced `last_update` string (line 149): either the string is rejected
(`ValueError`/`AttributeError`, the `except` branch of line 150) or it
denotes an instant, embedded as seconds since the epoch. -/
inductive IsoInstant
  | invalid
  | valid (t : Int)
deriving DecidableEq

/-- One entry of `operator_data['versions']` as consumed by
`calculate_certification_risk` / `analyze_operator`: only its
`annotations` dict matters, embedded as an association list
(`none` = key absent, `some []` = empty dict — both falsy in Python). -/
structure VersionInfo where
  annots : Option (List (String × String))
deriving DecidableEq

/-- The fields of the `operator_data` dict that
`calculate_certification_risk` reads. -/
structure OperatorData where
  last_update : Option IsoInstant
  versions : List VersionInfo
deriving DecidableEq

/-- Lines 162-164: `version_info['annotations'].get
('com.redhat.openshift.versions', '')` guarded by the falsy check
`if version_info.get('annotations')`. -/
def getAnnotVersions (vi : VersionInfo) : String :=
  match vi.annots with
  | none => ""
  | some [] => ""
  | some kvs => (kvs.lookup "com.redhat.openshift.versions").getD ""

/-- Line 166: the shape tag of one release. -/
def versionTypeOf (vi : VersionInfo) : String :=
  analyze_version_type (some (getAnnotVersions vi))

/-- The comparison `months_since_update >= k` of lines 175-179 where
`months_since_update = days / 30.44` (line 155).  Since `30.44 = 761/25`,
the comparison is `25 * days >= 761 * k` over the integers.  (The Python
float quotient can only disagree with the exact rational for day counts
around `10^14`, far outside representable history, so the rational model
is exact on all realizable inputs.) -/
def monthsGe (d : Int) (k : Int) : Bool :=
  decide (761 * k ≤ 25 * d)

/-- The `has_open_ended` flag computed by the loop of lines 157-172
(the loop's `has_only_explicit` companion is never read afterwards, so it
is not modelled). -/
def has_open_ended (vis : List VersionInfo) : Bool :=
  vis.foldl
    (fun acc vi =>
      if versionTypeOf vi == "open_ended" || versionTypeOf vi == "mixed" then true
      else acc)
    false

/-- `calculate_certification_risk` (lines 136-182).  `now` is the value
the Python code reads from the global clock via `datetime.datetime.now()`
on line 154, passed here explicitly as seconds since the epoch;
`(now - last_update).days` is the floored day difference (line 155). -/
def calculate_certification_risk (op : OperatorData) (now : Int) : String :=
  match op.last_update with
  | none => "unknown"
  | some IsoInstant.invalid => "unknown"
  | some (IsoInstant.valid t) =>
    let d : Int := Int.fdiv (now - t) 86400
    if has_open_ended op.versions && monthsGe d 12 then "high"
    else if has_open_ended op.versions && monthsGe d 9 then "medium"
    else if has_open_ended op.versions && monthsGe d 6 then "low"
    else "none"

/-- The set `version_types_found` of `analyze_operator` (lines 347-354):
which of the four non-`'none'` tags some release produced. -/
structure Tags4 where
  ranged : Bool
  explicit : Bool
  open_ended : Bool
  mixed : Bool
deriving DecidableEq

/-- `version_types_found.add(version_type)` for a tag already known to
differ from `'none'` (line 353-354). -/
def addTag4 (acc : Tags4) (vt : String) : Tags4 :=
  if vt = "ranged" then Tags4.mk true acc.explicit acc.open_ended acc.mixed
  else if vt = "explicit" then Tags4.mk acc.ranged true acc.open_ended acc.mixed
  else if vt = "open_ended" then Tags4.mk acc.ranged acc.explicit true acc.mixed
  else if vt = "mixed" then Tags4.mk acc.ranged acc.explicit acc.open_ended true
  else acc

/-- `len(version_types_found)`. -/
def tag4Count (t : Tags4) : Nat :=
  t.ranged.toNat + t.explicit.toNat + t.open_ended.toNat + t.mixed.toNat

/-- Lines 357-362: collapse the collected tag set. -/
def collapseTags4 (t : Tags4) : String :=
  if tag4Count t = 0 then "none"
  else if tag4Count t = 1 then
    (if t.ranged then "ranged" else if t.explicit then "explicit"
     else if t.open_ended then "open_ended" else "mixed")
  else "mixed"

/-- `result['version_type']` as computed by `analyze_operator`
(lines 345-364): each release is collapsed to one tag by
`analyze_version_type`, `'none'` tags are discarded, and the remaining
tag set is collapsed again; an operator with no releases is `'none'`. -/
def packageVersionType (vis : List VersionInfo) : String :=
  if vis = [] then "none"
  else
    collapseTags4 (vis.foldl
      (fun acc vi =>
        if versionTypeOf vi = "none" then acc else addTag4 acc (versionTypeOf vi))
      (Tags4.mk false false false false))

/-- Python string `<=` on two character lists: code-point lexicographic
order, shorter prefix first. -/
def charsLe : List Char → List Char → Bool
  | [], _ => true
  | _ :: _, [] => false
  | c :: cs, d :: ds =>
    if c.toNat < d.toNat then true
    else if d.toNat < c.toNat then false
    else charsLe cs ds

/-- Python string `<=` on `String`. -/
def strLeB (a b : String) : Bool :=
  charsLe a.data b.data

/-- `strLeB` as a relation, for `List.insertionSort`. -/
def strLeR (a b : String) : Prop :=
  strLeB a b = true

instance : DecidableRel strLeR :=
  fun a b => inferInstanceAs (Decidable (strLeB a b = true))

/-- `result['openshift_versions']` of `analyze_operator`: lines 319-327
accumulate `set`-union of the parsed expansions of every release whose
specifier string is non-empty, and line 340 emits `sorted(...)`.  The
`set` iteration order is irrelevant after sorting, so the union is
modelled as concatenation followed by `dedup`; `sorted` on distinct
Python strings is the unique ascending list under code-point order. -/
def aggregateOpenshiftVersions (vis : List VersionInfo) : List String :=
  List.insertionSort strLeR
    ((vis.foldl
        (fun acc vi =>
          let s := getAnnotVersions vi
          if s = "" then acc else acc ++ parse_openshift_versions (some s))
        []).dedup)

/-! ### Spec-side models

The following definitions are not translations of the Python source: they
follow the wording of the specification and exist to be compared with the
embedded code above. -/

/-- Spec model (spec §4.3 `assess`): written from the spec's four-step
rule — `Unknown` on absent/unparsable input, `monthsSinceUpdate` from
whole elapsed days and the 30.44 divisor (same exact-rational reading as
`monthsGe`), `hasOpenEnded` iff some release shape is open-ended or
mixed, then the first-match-wins threshold chain. -/
def assess (lastUpdate : Option IsoInstant) (releaseShapes : List String)
    (now : Int) : String :=
  match lastUpdate with
  | none => "unknown"
  | some IsoInstant.invalid => "unknown"
  | some (IsoInstant.valid t) =>
    let d : Int := Int.fdiv (now - t) 86400
    let hasOpenEnded : Bool :=
      releaseShapes.any (fun sh => sh == "open_ended" || sh == "mixed")
    if hasOpenEnded && monthsGe d 12 then "high"
    else if hasOpenEnded && monthsGe d 9 then "medium"
    else if hasOpenEnded && monthsGe d 6 then "low"
    else "none"

/-- Union of two shape sets. -/
def orTags (a b : Tags) : Tags :=
  Tags.mk (a.ranged || b.ranged) (a.explicit || b.explicit)
    (a.open_ended || b.open_ended)

/-- Spec model (spec §4.2 / §3 `PackageRecord`): the aggregate shape is
obtained by unioning the per-release sets of distinct clause shapes and
collapsing the union with the same rule as a single specifier —
`None` for the empty set, the single shape for a singleton, `Mixed`
otherwise. -/
def specAggregateShape (vis : List VersionInfo) : String :=
  collapseTags (vis.foldl
    (fun acc vi => orTags acc (shapeSetOfSpec (getAnnotVersions vi)))
    (Tags.mk false false false))

/-- `[s, s+1, ..., s+n-1]`. -/
def natsFrom : Nat → Nat → List Nat
  | _, 0 => []
  | s, n + 1 => s :: natsFrom (s + 1) n

/-- Lexicographic order on `(major, minor)` pairs. -/
def pairLe (a b : Nat × Nat) : Prop :=
  a.1 < b.1 ∨ (a.1 = b.1 ∧ a.2 ≤ b.2)

/-- Full rows of the open-ended walk: `kk` consecutive majors starting at
`M`, each with minors `0..20`. -/
def ceilingRows : Nat → Nat → List String
  | 0, _ => []
  | kk + 1, M => (natsFrom 0 21).map (render M) ++ ceilingRows kk (M + 1)

/-- Closed form of the open-ended walk from `(M, m)`. -/
def openEndedClosed (M m : Nat) : List String :=
  (natsFrom m (21 - m)).map (render M) ++ ceilingRows (4 - M) (M + 1)

/-- The annotation key read on lines 164 and 320. -/
def demoKey : String := "com.redhat.openshift.versions"

/-- A release whose specifier `"v4.8"` has open-ended shape. -/
def openEndedVi : VersionInfo := ⟨some [(demoKey, "v4.8")]⟩

/-- A release whose specifier `"v4.9"` has open-ended shape. -/
def openEndedVi9 : VersionInfo := ⟨some [(demoKey, "v4.9")]⟩

/-- A release whose specifier `"=v4.8"` has explicit shape. -/
def explicitVi : VersionInfo := ⟨some [(demoKey, "=v4.8")]⟩

/-- An operator with one open-ended release, last updated at instant 0. -/
def openEndedOp : OperatorData := ⟨some (IsoInstant.valid 0), [openEndedVi]⟩

/-- An operator with one open-ended release (different specifier),
last updated at instant 0. -/
def openEndedOp9 : OperatorData := ⟨some (IsoInstant.valid 0), [openEndedVi9]⟩

/-- An operator with one explicit release, last updated at instant 0. -/
def explicitOp : OperatorData := ⟨some (IsoInstant.valid 0), [explicitVi]⟩

/-- Two releases whose expansions are `{v4.10}` and `{v4.2}`. -/
def sortDemoVis : List VersionInfo :=
  [⟨some [(demoKey, "=v4.10")]⟩, ⟨some [(demoKey, "=v4.2")]⟩]

/-! ### Helper lemmas -/

theorem natsFrom_length : ∀ s n, (natsFrom s n).length = n := by
  intro s n
  induction n generalizing s with
  | zero => rfl
  | succ n ih => simp [natsFrom, ih]

theorem mem_natsFrom {x : Nat} : ∀ {s n : Nat}, x ∈ natsFrom s n ↔ s ≤ x ∧ x < s + n := by
  intro s n
  induction n generalizing s with
  | zero => simp [natsFrom]
  | succ n ih =>
    simp [natsFrom, ih]
    omega

/-- Same-major range expansion: for `vA.B-vA.D` with `D ≤ 99` the loop
emits exactly the minors `B..D` (and nothing when `B > D`). -/
theorem rangeLoop_same (A D : Nat) (hD : D ≤ 99) :
    ∀ k B, D + 1 - B = k → rangeLoop A B A D = (natsFrom B (D + 1 - B)).map (render A) := by
  intro k
  induction k with
  | zero =>
    intro B hB
    rw [rangeLoop, dif_neg (by omega)]
    rw [show D + 1 - B = 0 from hB]
    rfl
  | succ k ih =>
    intro B hB
    rw [rangeLoop, dif_pos (by omega)]
    by_cases h99 : 99 < B + 1
    · have hB99 : B = 99 := by omega
      have hD99 : D = 99 := by omega
      rw [dif_pos h99, show D + 1 - B = 1 by omega]
      simp [natsFrom, hB99]
    · rw [dif_neg h99, ih (B + 1) (by omega)]
      rw [show D + 1 - B = (D + 1 - (B + 1)) + 1 by omega]
      simp [natsFrom]

/-- Cross-major range expansion: once `A < C` the loop condition never
fails, so the walk runs from minor `B` straight into the minor-99 safety
break, with the major never incremented. -/
theorem rangeLoop_cross (A C em : Nat) (hAC : A < C) :
    ∀ k B, 100 - B = k → B ≤ 99 →
      rangeLoop A B C em = (natsFrom B (100 - B)).map (render A) := by
  intro k
  induction k with
  | zero => intro B hB hB99; omega
  | succ k ih =>
    intro B hB hB99
    rw [rangeLoop, dif_pos (Or.inl hAC)]
    by_cases h99 : 99 < B + 1
    · have hB' : B = 99 := by omega
      rw [dif_pos h99, show 100 - B = 1 by omega]
      simp [natsFrom, hB']
    · rw [dif_neg h99, ih (B + 1) (by omega) (by omega)]
      rw [show 100 - B = (100 - (B + 1)) + 1 by omega]
      simp [natsFrom]

/-- The open-ended loop emits nothing when the start lies beyond the
policy ceiling. -/
theorem openEndedLoop_stop (M m : Nat) (h : 4 < M ∨ 20 < m) :
    openEndedLoop M m = [] := by
  rw [openEndedLoop, dif_neg (by omega)]

/-- One row of the open-ended walk: minors `m..20` of major `M`, then the
carry into major `M + 1` (or the break when `M = 4`). -/
theorem openEndedLoop_row (M : Nat) (hM : M ≤ 4) :
    ∀ k m, 21 - m = k → m ≤ 20 →
      openEndedLoop M m = (natsFrom m (21 - m)).map (render M) ++
        (if M < 4 then openEndedLoop (M + 1) 0 else []) := by
  intro k
  induction k with
  | zero => intro m hk hm; omega
  | succ k ih =>
    intro m hk hm
    rw [openEndedLoop, dif_pos ⟨hM, hm⟩]
    by_cases h20 : 20 < m + 1
    · have hm20 : m = 20 := by omega
      rw [dif_pos h20, show 21 - m = 1 by omega]
      by_cases h4 : 4 < M + 1
      · rw [dif_pos h4, if_neg (by omega)]
        simp [natsFrom, hm20]
      · rw [dif_neg h4, if_pos (by omega)]
        simp [natsFrom, hm20]
    · rw [dif_neg h20, ih (m + 1) (by omega) (by omega)]
      rw [show 21 - m = (21 - (m + 1)) + 1 by omega]
      simp [natsFrom]

theorem openEndedLoop_closed :
    ∀ j M, 4 - M = j → M ≤ 4 → ∀ m, m ≤ 20 →
      openEndedLoop M m = openEndedClosed M m := by
  intro j
  induction j with
  | zero =>
    intro M hj hM m hm
    have hM4 : M = 4 := by omega
    rw [openEndedLoop_row M hM (21 - m) m rfl hm, openEndedClosed, hM4]
    simp [ceilingRows]
  | succ j ih =>
    intro M hj hM m hm
    rw [openEndedLoop_row M hM (21 - m) m rfl hm, if_pos (by omega)]
    rw [ih (M + 1) (by omega) (by omega) 0 (by omega)]
    rw [openEndedClosed, openEndedClosed, show 4 - M = (4 - (M + 1)) + 1 by omega]
    simp [ceilingRows]

theorem mem_ceilingRows {s : String} :
    ∀ kk M0, s ∈ ceilingRows kk M0 →
      ∃ mj mn, s = render mj mn ∧ M0 ≤ mj ∧ mj < M0 + kk ∧ mn ≤ 20 := by
  intro kk
  induction kk with
  | zero => intro M0 h; simp [ceilingRows] at h
  | succ kk ih =>
    intro M0 h
    rw [ceilingRows] at h
    rcases List.mem_append.1 h with h1 | h2
    · rcases List.mem_map.1 h1 with ⟨mn, hmem, hs⟩
      exact ⟨M0, mn, hs.symm, le_refl _, by omega, by
        have := mem_natsFrom.1 hmem; omega⟩
    · rcases ih (M0 + 1) h2 with ⟨mj, mn, hs, h1', h2', h3'⟩
      exact ⟨mj, mn, hs, by omega, by omega, h3'⟩

/-- Every version the open-ended loop synthesizes lies (as a rendered
`(major, minor)` pair) in the closed lexicographic interval from the
start to the policy ceiling `(4, 20)`. -/
theorem mem_openEndedLoop {A B : Nat} {s : String}
    (h : s ∈ openEndedLoop A B) :
    ∃ mj mn, s = render mj mn ∧ pairLe (A, B) (mj, mn) ∧ pairLe (mj, mn) (4, 20) := by
  by_cases hin : A ≤ 4 ∧ B ≤ 20
  · rw [openEndedLoop_closed (4 - A) A rfl hin.1 B hin.2, openEndedClosed] at h
    rcases List.mem_append.1 h with h1 | h2
    · rcases List.mem_map.1 h1 with ⟨mn, hmem, hs⟩
      have hb := mem_natsFrom.1 hmem
      refine ⟨A, mn, hs.symm, Or.inr ⟨rfl, hb.1⟩, ?_⟩
      rcases Nat.lt_or_ge A 4 with hlt | hge
      · exact Or.inl hlt
      · exact Or.inr ⟨by omega, by omega⟩
    · rcases mem_ceilingRows _ _ h2 with ⟨mj, mn, hs, h1', h2', h3'⟩
      exact ⟨mj, mn, hs, Or.inl (by omega), by
        rcases Nat.lt_or_ge mj 4 with hlt | hge
        · exact Or.inl hlt
        · exact Or.inr ⟨by omega, h3'⟩⟩
  · rw [openEndedLoop_stop A B (by omega)] at h
    simp at h

theorem charsLe_total : ∀ a b, charsLe a b = true ∨ charsLe b a = true := by
  intro a
  induction a with
  | nil => intro b; left; rfl
  | cons c cs ih =>
    intro b
    cases b with
    | nil => right; rfl
    | cons d ds =>
      by_cases h1 : c.toNat < d.toNat
      · left; simp [charsLe, h1]
      · by_cases h2 : d.toNat < c.toNat
        · right; simp [charsLe, h2]
        · rcases ih ds with h | h
          · left; simp [charsLe, h1, h2, h]
          · right; simp [charsLe, h1, h2, h]

theorem charsLe_trans :
    ∀ a b c, charsLe a b = true → charsLe b c = true → charsLe a c = true := by
  intro a
  induction a with
  | nil => intro b c _ _; rfl
  | cons x xs ih =>
    intro b c hab hbc
    cases b with
    | nil => simp [charsLe] at hab
    | cons y ys =>
      cases c with
      | nil => simp [charsLe] at hbc
      | cons z zs =>
        simp only [charsLe] at hab hbc ⊢
        split_ifs at hab hbc ⊢ <;>
          first
          | rfl
          | omega
          | exact ih ys zs hab hbc

instance : IsTotal String strLeR :=
  ⟨fun a b => charsLe_total a.data b.data⟩

instance : IsTrans String strLeR :=
  ⟨fun a b c => charsLe_trans a.data b.data c.data⟩

/-- A boolean-flag fold of the kind used for `has_open_ended`
(lines 161-169) is `any`. -/
theorem foldl_flag {α : Type} (p : α → Bool) :
    ∀ (l : List α) (a : Bool),
      l.foldl (fun acc x => if p x then true else acc) a = (a || l.any p) := by
  intro l
  induction l with
  | nil => intro a; simp
  | cons x l ih =>
    intro a
    rw [List.foldl_cons, ih, List.any_cons]
    by_cases h : p x = true <;> simp [h]

/-- `any` over a mapped list. -/
theorem any_map_eq {α β : Type} (f : α → β) (p : β → Bool) :
    ∀ l : List α, (l.map f).any p = l.any (fun x => p (f x)) := by
  intro l
  induction l with
  | nil => rfl
  | cons x l ih => simp [List.any_cons, ih]

/-- An accumulate-by-append fold is `append` of `join` of `map`. -/
theorem foldl_append_eq_join {α β : Type} (f : α → List β) :
    ∀ (l : List α) (a : List β),
      l.foldl (fun acc x => acc ++ f x) a = a ++ (l.map f).flatten := by
  intro l
  induction l with
  | nil => intro a; simp
  | cons x l ih => intro a; simp [List.foldl_cons, ih]

/-- Bridge for the risk engine: `calculate_certification_risk` factors
through the spec-shaped `assess`, applied to the operator's last-update
outcome and per-release shape tags. -/
theorem risk_eq_assess (op : OperatorData) (now : Int) :
    calculate_certification_risk op now =
      assess op.last_update (op.versions.map versionTypeOf) now := by
  unfold calculate_certification_risk assess has_open_ended
  cases op.last_update with
  | none => rfl
  | some iso =>
    cases iso with
    | invalid => rfl
    | valid t =>
      have hfold := foldl_flag
        (fun vi => versionTypeOf vi == "open_ended" || versionTypeOf vi == "mixed")
        op.versions false
      simp only [hfold, Bool.false_or, any_map_eq]

/-- `analyze_version_type` on a present string is the collapse of the
clause shape set (for `""` both sides are `"none"`). -/
theorem analyze_eq_collapse (s : String) :
    analyze_version_type (some s) = collapseTags (shapeSetOfSpec s) := by
  by_cases h : s = ""
  · subst h; rfl
  · simp [analyze_version_type, h]

theorem collapse_of_twoPlus (t : Tags) (h : 1 < tagCount t) :
    collapseTags t = "mixed" := by
  rcases t with ⟨r, e, o⟩
  revert h
  cases r <;> cases e <;> cases o <;> decide

theorem pw_ranged (t : Tags) (h : tagCount t ≤ 1) :
    (collapseTags t == "ranged") = t.ranged := by
  rcases t with ⟨r, e, o⟩
  revert h
  cases r <;> cases e <;> cases o <;> decide

theorem pw_explicit (t : Tags) (h : tagCount t ≤ 1) :
    (collapseTags t == "explicit") = t.explicit := by
  rcases t with ⟨r, e, o⟩
  revert h
  cases r <;> cases e <;> cases o <;> decide

theorem pw_open_ended (t : Tags) (h : tagCount t ≤ 1) :
    (collapseTags t == "open_ended") = t.open_ended := by
  rcases t with ⟨r, e, o⟩
  revert h
  cases r <;> cases e <;> cases o <;> decide

theorem pw_mixed (t : Tags) (h : tagCount t ≤ 1) :
    (collapseTags t == "mixed") = false := by
  rcases t with ⟨r, e, o⟩
  revert h
  cases r <;> cases e <;> cases o <;> decide

/-- The union fold of the spec-side aggregate, component-wise. -/
theorem foldl_orTags {α : Type} (g : α → Tags) :
    ∀ (l : List α) (a : Tags),
      l.foldl (fun acc x => orTags acc (g x)) a =
        Tags.mk (a.ranged || l.any (fun x => (g x).ranged))
          (a.explicit || l.any (fun x => (g x).explicit))
          (a.open_ended || l.any (fun x => (g x).open_ended)) := by
  intro l
  induction l with
  | nil => intro a; simp
  | cons x l ih =>
    intro a
    rw [List.foldl_cons, ih]
    simp [orTags, Bool.or_assoc]

/-- The tag-set fold of `analyze_operator`, component-wise. -/
theorem foldl_addTag4 {α : Type} (f : α → String) :
    ∀ (l : List α) (a : Tags4),
      l.foldl (fun acc x => if f x = "none" then acc else addTag4 acc (f x)) a =
        Tags4.mk (a.ranged || l.any (fun x => f x == "ranged"))
          (a.explicit || l.any (fun x => f x == "explicit"))
          (a.open_ended || l.any (fun x => f x == "open_ended"))
          (a.mixed || l.any (fun x => f x == "mixed")) := by
  intro l
  induction l with
  | nil => intro a; simp
  | cons x l ih =>
    intro a
    rw [List.foldl_cons, ih]
    by_cases h0 : f x = "none"
    · simp [h0, addTag4]
    · rw [if_neg h0]
      by_cases h1 : f x = "ranged"
      · simp [h1, addTag4, Bool.or_assoc]
      · by_cases h2 : f x = "explicit"
        · simp [h2, addTag4, Bool.or_assoc]
        · by_cases h3 : f x = "open_ended"
          · simp [h3, addTag4, Bool.or_assoc]
          · by_cases h4 : f x = "mixed"
            · simp [h4, addTag4, Bool.or_assoc]
            · have b1 : (f x == "ranged") = false := beq_eq_false_iff_ne.mpr h1
              have b2 : (f x == "explicit") = false := beq_eq_false_iff_ne.mpr h2
              have b3 : (f x == "open_ended") = false := beq_eq_false_iff_ne.mpr h3
              have b4 : (f x == "mixed") = false := beq_eq_false_iff_ne.mpr h4
              simp [addTag4, h0, h1, h2, h3, h4, b1, b2, b3, b4]

/-- The heart of the aggregate-shape equivalence: collapsing the union of
shape sets agrees with collapsing the set of per-release collapsed tags
(with `"none"` tags discarded). -/
theorem collapse_union_eq {α : Type} (g : α → Tags) (S : List α) :
    collapseTags (Tags.mk (S.any (fun x => (g x).ranged))
        (S.any (fun x => (g x).explicit)) (S.any (fun x => (g x).open_ended))) =
      collapseTags4 (Tags4.mk (S.any (fun x => collapseTags (g x) == "ranged"))
        (S.any (fun x => collapseTags (g x) == "explicit"))
        (S.any (fun x => collapseTags (g x) == "open_ended"))
        (S.any (fun x => collapseTags (g x) == "mixed"))) := by
  by_cases hm : S.any (fun x => decide (1 < tagCount (g x))) = true
  · rcases List.any_eq_true.1 hm with ⟨x, hx, htw⟩
    have htw' : 1 < tagCount (g x) := of_decide_eq_true htw
    have hmix : S.any (fun x => collapseTags (g x) == "mixed") = true :=
      List.any_eq_true.2 ⟨x, hx, by simp [collapse_of_twoPlus _ htw']⟩
    have hrhs : ∀ r e o, collapseTags4 (Tags4.mk r e o true) = "mixed" := by
      intro r e o
      cases r <;> cases e <;> cases o <;> rfl
    rw [hmix, hrhs]
    rcases hg : g x with ⟨r, e, o⟩
    rw [hg] at htw'
    have liftR : (g x).ranged = true → S.any (fun y => (g y).ranged) = true :=
      fun hsel => List.any_eq_true.2 ⟨x, hx, hsel⟩
    have liftE : (g x).explicit = true → S.any (fun y => (g y).explicit) = true :=
      fun hsel => List.any_eq_true.2 ⟨x, hx, hsel⟩
    have liftO : (g x).open_ended = true → S.any (fun y => (g y).open_ended) = true :=
      fun hsel => List.any_eq_true.2 ⟨x, hx, hsel⟩
    cases r <;> cases e <;> cases o
    · exact absurd htw' (by decide)
    · exact absurd htw' (by decide)
    · exact absurd htw' (by decide)
    · rw [liftE (by rw [hg]), liftO (by rw [hg])]
      cases S.any (fun x => (g x).ranged) <;> rfl
    · exact absurd htw' (by decide)
    · rw [liftR (by rw [hg]), liftO (by rw [hg])]
      cases S.any (fun x => (g x).explicit) <;> rfl
    · rw [liftR (by rw [hg]), liftE (by rw [hg])]
      cases S.any (fun x => (g x).open_ended) <;> rfl
    · rw [liftR (by rw [hg]), liftE (by rw [hg])]
      cases S.any (fun x => (g x).open_ended) <;> rfl
  · have hm' : S.any (fun x => decide (1 < tagCount (g x))) = false := by
      simpa using hm
    have hall : ∀ x ∈ S, tagCount (g x) ≤ 1 := by
      intro x hx
      have := List.any_eq_false.1 hm' x hx
      simp at this
      omega
    have congrAny : ∀ (p q : α → Bool), (∀ x ∈ S, p x = q x) →
        S.any p = S.any q := by
      intro p q hpq
      cases hq : S.any q
      · rw [List.any_eq_false] at hq ⊢
        intro x hx
        rw [hpq x hx]
        exact hq x hx
      · rcases List.any_eq_true.1 hq with ⟨x, hx, hqx⟩
        exact List.any_eq_true.2 ⟨x, hx, (hpq x hx).symm ▸ hqx⟩
    rw [congrAny _ _ (fun x hx => pw_ranged _ (hall x hx)),
      congrAny _ _ (fun x hx => pw_explicit _ (hall x hx)),
      congrAny _ _ (fun x hx => pw_open_ended _ (hall x hx)),
      congrAny _ _ (fun x hx => pw_mixed _ (hall x hx))]
    rw [show S.any (fun _ => false) = false from
      List.any_eq_false.2 (fun x _ => by simp)]
    cases S.any (fun x => (g x).ranged) <;>
      cases S.any (fun x => (g x).explicit) <;>
        cases S.any (fun x => (g x).open_ended) <;> rfl

theorem has_open_ended_of_all (vis : List VersionInfo) (hne : vis ≠ [])
    (hall : ∀ vi ∈ vis, versionTypeOf vi = "open_ended") :
    has_open_ended vis = true := by
  unfold has_open_ended
  rw [foldl_flag]
  rcases vis with _ | ⟨v, vs⟩
  · exact absurd rfl hne
  · have hv := hall v (by simp)
    simp [List.any_cons, hv]

theorem has_open_ended_of_explicit (vis : List VersionInfo)
    (hall : ∀ vi ∈ vis, versionTypeOf vi = "explicit") :
    has_open_ended vis = false := by
  unfold has_open_ended
  rw [foldl_flag]
  simp only [Bool.false_or]
  rw [List.any_eq_false]
  intro vi hvi
  simp [hall vi hvi]


/-! ### Claims -/

/-- Claim C1 counterexample: with one open-ended release and a last update
exactly 200 days old the code returns `'low'` (200 days is about 6.57
months, below the 9-month `'medium'` threshold), and at 180 days it
returns `'none'` (about 5.91 months, below the 6-month `'low'`
threshold) — not `'medium'` and `'low'` as the claim states. -/
theorem claim_C1_cx :
    calculate_certification_risk openEndedOp (200 * 86400) = "low" ∧
    calculate_certification_risk openEndedOp (180 * 86400) = "none" := by
  constructor <;> decide

/-- Claim C1 (amended): for an operator whose (nonempty) releases all have
open-ended shape and whose last update parses to an instant `t`, a 400-day
age yields `'high'`, 200 days yields `'low'`, 180 days and 10 days yield
`'none'`; with only explicit-shaped releases, 400 days still yields
`'none'`. -/
theorem claim_C1_thm :
    (∀ (op : OperatorData) (now t : Int),
      op.last_update = some (IsoInstant.valid t) → op.versions ≠ [] →
      (∀ vi ∈ op.versions, versionTypeOf vi = "open_ended") →
      now - t = 400 * 86400 →
      calculate_certification_risk op now = "high") ∧
    (∀ (op : OperatorData) (now t : Int),
      op.last_update = some (IsoInstant.valid t) → op.versions ≠ [] →
      (∀ vi ∈ op.versions, versionTypeOf vi = "open_ended") →
      now - t = 200 * 86400 →
      calculate_certification_risk op now = "low") ∧
    (∀ (op : OperatorData) (now t : Int),
      op.last_update = some (IsoInstant.valid t) → op.versions ≠ [] →
      (∀ vi ∈ op.versions, versionTypeOf vi = "open_ended") →
      now - t = 180 * 86400 →
      calculate_certification_risk op now = "none") ∧
    (∀ (op : OperatorData) (now t : Int),
      op.last_update = some (IsoInstant.valid t) → op.versions ≠ [] →
      (∀ vi ∈ op.versions, versionTypeOf vi = "open_ended") →
      now - t = 10 * 86400 →
      calculate_certification_risk op now = "none") ∧
    (∀ (op : OperatorData) (now t : Int),
      op.last_update = some (IsoInstant.valid t) →
      (∀ vi ∈ op.versions, versionTypeOf vi = "explicit") →
      now - t = 400 * 86400 →
      calculate_certification_risk op now = "none") := by
  refine ⟨?_, ?_, ?_, ?_, ?_⟩
  · intro op now t hlu hne hall hd
    simp only [calculate_certification_risk, hlu,
      has_open_ended_of_all op.versions hne hall, hd]
    decide
  · intro op now t hlu hne hall hd
    simp only [calculate_certification_risk, hlu,
      has_open_ended_of_all op.versions hne hall, hd]
    decide
  · intro op now t hlu hne hall hd
    simp only [calculate_certification_risk, hlu,
      has_open_ended_of_all op.versions hne hall, hd]
    decide
  · intro op now t hlu hne hall hd
    simp only [calculate_certification_risk, hlu,
      has_open_ended_of_all op.versions hne hall, hd]
    decide
  · intro op now t hlu hall hd
    simp only [calculate_certification_risk, hlu,
      has_open_ended_of_explicit op.versions hall, hd]
    decide

/-- Claim C1 witness: the amended thresholds realized on concrete
operators. -/
theorem claim_C1_wit :
    calculate_certification_risk openEndedOp (400 * 86400) = "high" ∧
    calculate_certification_risk openEndedOp (10 * 86400) = "none" ∧
    calculate_certification_risk explicitOp (400 * 86400) = "none" := by
  refine ⟨?_, ?_, ?_⟩
  · exact claim_C1_thm.1 openEndedOp (400 * 86400) 0 rfl (by decide) (by decide)
      (by decide)
  · exact claim_C1_thm.2.2.2.1 openEndedOp (10 * 86400) 0 rfl (by decide)
      (by decide) (by decide)
  · exact claim_C1_thm.2.2.2.2 explicitOp (400 * 86400) 0 rfl (by decide)
      (by decide)


/-- Claim C2: for every input, `calculate_certification_risk` coincides
with the spec's `assess` applied to the operator's last-update outcome and
the list of its per-release shape tags — `'unknown'` on absent or
unparsable last update, otherwise the first-match-wins 12/9/6-month rule
over whole elapsed days divided by exactly 30.44, gated by `hasOpenEnded`
(some release's shape is open-ended or mixed). -/
theorem claim_C2_thm (op : OperatorData) (now : Int) :
    calculate_certification_risk op now =
      assess op.last_update (op.versions.map versionTypeOf) now :=
  risk_eq_assess op now

/-- Claim C6 counterexample: the Python function reads `now` from the
global clock inside its body, so two calls on the *same* operator data
observe different clocks and can return different risk levels — the
result is not a function of the explicit inputs alone. -/
theorem claim_C6_cx :
    calculate_certification_risk openEndedOp 0 ≠
      calculate_certification_risk openEndedOp (400 * 86400) := by
  decide

/-- Claim C6 (amended): the risk computation is deterministic given the
ambient clock reading: two calls with identical last-update data,
identical per-release shapes and an equal clock instant return equal risk
levels.  (`now` is read from the global clock on line 154, not injected.) -/
theorem claim_C6_thm (op1 op2 : OperatorData) (now : Int)
    (hlu : op1.last_update = op2.last_update)
    (hsh : op1.versions.map versionTypeOf = op2.versions.map versionTypeOf) :
    calculate_certification_risk op1 now = calculate_certification_risk op2 now := by
  rw [risk_eq_assess, risk_eq_assess, hlu, hsh]

/-- Claim C6 witness: two syntactically different operators with the same
last update and shape list get the same risk. -/
theorem claim_C6_wit :
    calculate_certification_risk openEndedOp 12345 =
      calculate_certification_risk openEndedOp9 12345 :=
  claim_C6_thm openEndedOp openEndedOp9 12345 (by decide) (by decide)


/-- Claim C3 counterexample: for the ranged clause `v4.1-v5.0` the
lexicographic interval contains `(5,0)`, but the loop never carries into
the next major (it fixes the major and breaks at minor 99), so `v5.0` is
not produced. -/
theorem claim_C3_cx :
    "v5.0" ∉ parse_openshift_versions (some "v4.1-v5.0") := by
  rw [show parse_openshift_versions (some "v4.1-v5.0") = rangeLoop 4 1 5 0 from rfl,
    rangeLoop_cross 4 5 0 (by omega) 99 1 rfl (by omega)]
  decide

/-- Claim C3 (amended): a ranged clause walks the minor upward with the
major fixed at the start major and never carries.  For a same-major range
`vA.B-vA.D` with `B ≤ D ≤ 99` the expansion is exactly the minors `B..D`
(cardinality `D - B + 1`); once the end major is strictly larger the walk
runs from `B` to minor 99 and stops there without error, so the absurd
range `v4.1-v9.99` is capped at 99 versions. -/
theorem claim_C3_thm :
    (∀ A B D : Nat, B ≤ D → D ≤ 99 →
      rangeLoop A B A D = (natsFrom B (D + 1 - B)).map (render A) ∧
      (rangeLoop A B A D).length = D + 1 - B) ∧
    (∀ A B C em : Nat, A < C → B ≤ 99 →
      rangeLoop A B C em = (natsFrom B (100 - B)).map (render A) ∧
      (rangeLoop A B C em).length = 100 - B) ∧
    (parse_openshift_versions (some "v4.1-v9.99")).length = 99 := by
  refine ⟨?_, ?_, ?_⟩
  · intro A B D hBD hD
    have h := rangeLoop_same A D hD (D + 1 - B) B rfl
    exact ⟨h, by rw [h, List.length_map, natsFrom_length]⟩
  · intro A B C em hAC hB
    have h := rangeLoop_cross A C em hAC (100 - B) B rfl hB
    exact ⟨h, by rw [h, List.length_map, natsFrom_length]⟩
  · rw [show parse_openshift_versions (some "v4.1-v9.99") = rangeLoop 4 1 9 99 from rfl,
      rangeLoop_cross 4 9 99 (by omega) 99 1 rfl (by omega),
      List.length_map, natsFrom_length]

/-- Claim C3 witness: the amended characterization at concrete ranges. -/
theorem claim_C3_wit :
    rangeLoop 4 11 4 13 = ["v4.11", "v4.12", "v4.13"] ∧
    (rangeLoop 4 1 5 0).length = 99 := by
  constructor
  · rw [(claim_C3_thm.1 4 11 13 (by decide) (by decide)).1]
    rfl
  · exact (claim_C3_thm.2.1 4 1 5 0 (by decide) (by decide)).2

/-- Claim C4 counterexample: the parse of `"v4.8,v4.10-v4.12,v4.15"` is
not a deduplicated set — `v4.10` (like `v4.11`, `v4.12`, and
`v4.15..v4.20`) occurs twice in the returned list. -/
theorem claim_C4_cx :
    (parse_openshift_versions (some "v4.8,v4.10-v4.12,v4.15")).count "v4.10" = 2 := by
  rw [show parse_openshift_versions (some "v4.8,v4.10-v4.12,v4.15") =
      (openEndedLoop 4 8 ++ rangeLoop 4 10 4 12) ++ openEndedLoop 4 15 from rfl,
    openEndedLoop_closed 0 4 rfl (by omega) 8 (by omega),
    openEndedLoop_closed 0 4 rfl (by omega) 15 (by omega),
    rangeLoop_same 4 12 (by omega) 3 10 rfl]
  decide

/-- Claim C4 (amended): the parser trims surrounding quote/whitespace
characters, splits on commas and expands each clause independently, but
returns the in-order concatenation of clause expansions, duplicates
included; deduplication only happens later in the per-package
aggregation.  In particular the example specifier yields the
concatenation of the three clause expansions. -/
theorem claim_C4_thm :
    (∀ s : String, parse_openshift_versions (some s) =
      ((partsOf s).map parseClause).flatten) ∧
    parse_openshift_versions (some "v4.8,v4.10-v4.12,v4.15") =
      (openEndedLoop 4 8 ++ rangeLoop 4 10 4 12) ++ openEndedLoop 4 15 := by
  constructor
  · intro s
    by_cases h : s = ""
    · subst h; rfl
    · simp [parse_openshift_versions, h, foldl_append_eq_join]
  · rfl

/-- Claim C5 counterexample: the open-ended clause `v3.21` starts below
the ceiling major but above the ceiling minor, and the loop condition
`cm <= 20` fails immediately, so the parse is empty — it contains neither
`PlatformVersion(3,21)` nor any later version. -/
theorem claim_C5_cx :
    parse_openshift_versions (some "v3.21") = [] := by
  rw [show parse_openshift_versions (some "v3.21") = openEndedLoop 3 21 from rfl]
  exact openEndedLoop_stop 3 21 (by omega)

/-- Claim C5 (amended): for an open-ended clause `vA.B` with `A ≤ 4` and
`B ≤ 20` the expansion is exactly the ceiling walk (minors `B..20` of
major `A`, then full minor rows `0..20` of each later major up to 4),
which in particular contains `vA.B` itself; and for every open-ended
clause no version outside the closed lexicographic interval from `(A,B)`
to the ceiling `(4,20)` is ever synthesized. -/
theorem claim_C5_thm :
    (∀ A B : Nat, A ≤ 4 → B ≤ 20 → openEndedLoop A B = openEndedClosed A B) ∧
    (∀ A B : Nat, A ≤ 4 → B ≤ 20 → render A B ∈ openEndedLoop A B) ∧
    (∀ A B : Nat, 4 < A ∨ 20 < B → openEndedLoop A B = []) ∧
    (∀ (A B : Nat) (s : String), s ∈ openEndedLoop A B →
      ∃ mj mn, s = render mj mn ∧ pairLe (A, B) (mj, mn) ∧
        pairLe (mj, mn) (4, 20)) := by
  refine ⟨?_, ?_, ?_, ?_⟩
  · intro A B hA hB
    exact openEndedLoop_closed (4 - A) A rfl hA B hB
  · intro A B hA hB
    rw [openEndedLoop_closed (4 - A) A rfl hA B hB]
    unfold openEndedClosed
    apply List.mem_append.2
    left
    apply List.mem_map.2
    exact ⟨B, mem_natsFrom.2 ⟨le_refl B, by omega⟩, rfl⟩
  · intro A B h
    exact openEndedLoop_stop A B h
  · intro A B s h
    exact mem_openEndedLoop h

/-- Claim C5 witness: the walk realized at `v4.18`, and the interval
bounds realized at `v4.20 ∈ parse(v4.18)`. -/
theorem claim_C5_wit :
    openEndedLoop 4 18 = ["v4.18", "v4.19", "v4.20"] ∧
    "v4.18" ∈ openEndedLoop 4 18 ∧
    openEndedLoop 2 25 = [] ∧
    (∃ mj mn, "v4.20" = render mj mn ∧ pairLe (4, 18) (mj, mn) ∧
      pairLe (mj, mn) (4, 20)) := by
  have h1 := claim_C5_thm.1 4 18 (by decide) (by decide)
  refine ⟨?_, ?_, ?_, ?_⟩
  · rw [h1]; rfl
  · exact claim_C5_thm.2.1 4 18 (by decide) (by decide)
  · exact claim_C5_thm.2.2.1 2 25 (Or.inr (by decide))
  · exact claim_C5_thm.2.2.2 4 18 "v4.20"
      (h1.symm ▸ (by decide : "v4.20" ∈ openEndedClosed 4 18))

/-- Claim C8: an open-ended clause whose start lies beyond the policy
ceiling — major above 4, or major 4 with minor above 20 — expands to the
empty set; in particular `v5.0` and `v4.21` parse to nothing (the clause
matches the open-ended pattern, so it never reaches the literal
passthrough). -/
theorem claim_C8_thm :
    (∀ A B : Nat, 4 < A ∨ (A = 4 ∧ 20 < B) → openEndedLoop A B = []) ∧
    parse_openshift_versions (some "v5.0") = [] ∧
    parse_openshift_versions (some "v4.21") = [] := by
  refine ⟨?_, ?_, ?_⟩
  · intro A B h
    exact openEndedLoop_stop A B (by omega)
  · rw [show parse_openshift_versions (some "v5.0") = openEndedLoop 5 0 from rfl]
    exact openEndedLoop_stop 5 0 (by omega)
  · rw [show parse_openshift_versions (some "v4.21") = openEndedLoop 4 21 from rfl]
    exact openEndedLoop_stop 4 21 (by omega)

/-- Claim C8 witness: the beyond-ceiling rule applied at `v5.0` and
`v4.21`. -/
theorem claim_C8_wit :
    openEndedLoop 5 0 = [] ∧ openEndedLoop 4 21 = [] :=
  ⟨claim_C8_thm.1 5 0 (Or.inl (by decide)),
   claim_C8_thm.1 4 21 (Or.inr ⟨rfl, by decide⟩)⟩


/-- Claim C7: the package aggregate shape computed the spec's way —
union the per-release sets of distinct clause shapes, then collapse
(none / single / mixed) — equals the aggregate the implementation
computes by collapsing each release to one tag, discarding `'none'` tags
and collapsing the resulting tag set. -/
theorem claim_C7_thm (vis : List VersionInfo) :
    specAggregateShape vis = packageVersionType vis := by
  rcases vis with _ | ⟨v, vs⟩
  · rfl
  · unfold specAggregateShape packageVersionType
    rw [if_neg (by simp)]
    rw [foldl_orTags (fun vi => shapeSetOfSpec (getAnnotVersions vi))]
    rw [foldl_addTag4 versionTypeOf]
    simp only [Bool.false_or]
    have hvt : ∀ vi : VersionInfo,
        versionTypeOf vi = collapseTags (shapeSetOfSpec (getAnnotVersions vi)) :=
      fun vi => analyze_eq_collapse _
    simp only [hvt]
    exact collapse_union_eq (fun vi => shapeSetOfSpec (getAnnotVersions vi)) (v :: vs)

/-- Claim C10: the per-package deduplicated union of expanded versions is
sorted as strings (code-point lexicographic), not by numeric
`(major, minor)` order: whenever both occur, `"v4.10"` precedes
`"v4.2"`. -/
theorem claim_C10_thm (vis : List VersionInfo)
    (i j : Fin (aggregateOpenshiftVersions vis).length)
    (hi : (aggregateOpenshiftVersions vis).get i = "v4.10")
    (hj : (aggregateOpenshiftVersions vis).get j = "v4.2") :
    i < j := by
  have hs : List.Sorted strLeR (aggregateOpenshiftVersions vis) :=
    List.sorted_insertionSort strLeR _
  rcases lt_trichotomy i j with h | h | h
  · exact h
  · rw [h] at hi
    rw [hi] at hj
    exact absurd hj (by decide)
  · have hrel := List.Sorted.rel_get_of_lt hs h
    rw [hi, hj] at hrel
    exact absurd hrel (by decide)

/-- Claim C10 witness: on a package expanding to `{v4.10, v4.2}` the
aggregate list puts `v4.10` at index 0 and `v4.2` at index 1. -/
theorem claim_C10_wit :
    (⟨0, by decide⟩ : Fin (aggregateOpenshiftVersions sortDemoVis).length) <
      (⟨1, by decide⟩ : Fin (aggregateOpenshiftVersions sortDemoVis).length) :=
  claim_C10_thm sortDemoVis ⟨0, by decide⟩ ⟨1, by decide⟩ (by decide) (by decide)

end CertOps
